import Mathlib

/-!
Verification development for the civiclens-ai ingestion-and-retrieval
pipeline (src/app/ingest.py, src/app/rag.py, src/app/constants.py,
src/app/chainlit_app.py).  Text is modelled as `List Char`: Python strings
are sequences of code points.  External services (file parsers, the vector
store, the Cohere reranker, the language model, Redis) enter the model only
through the interface the code calls on them.
-/

set_option maxRecDepth 10000

namespace CivicLens

/-- Python whitespace as stripped by str.strip (the ASCII cases; the texts
handled here contain no further Unicode whitespace). -/
def isPyWhitespace (c : Char) : Bool :=
  c == ' ' || c == '\t' || c == '\n' || c == '\x0b' || c == '\x0c' || c == '\r'

/-- Python str.strip(): leading and trailing whitespace removed. -/
def pyStrip (s : List Char) : List Char :=
  ((s.dropWhile isPyWhitespace).reverse.dropWhile isPyWhitespace).reverse

/-- Occurrence test for a literal pattern, as re.search of the re.escape-d
separator in RecursiveCharacterTextSplitter._split_text. -/
def containsSeq (pat : List Char) : List Char → Bool
  | [] => pat.isEmpty
  | c :: rest => pat.isPrefixOf (c :: rest) || containsSeq pat rest

/-- A loaded langchain Document: page content plus the source-path metadata
that the file loaders attach. -/
structure Document where
  pageContent : List Char
  source : String
deriving DecidableEq

/-- The four format parsers `_load_docs` dispatches to (ingest.py 44-59). -/
inductive ParserKind
  | markdown
  | pdf
  | docx
  | txt
deriving DecidableEq

/-- An entry enumerated by the glob in `_load_docs`: its path, whether it is
a directory, and what each external parser would return for it (`none`
models the parser raising an exception). -/
structure FSEntry where
  path : String
  isDir : Bool
  parse : ParserKind → Option (List Document)

/-- Index of the last occurrence of a character (Python str.rfind; `none`
stands for -1). -/
def rfindIdx : List Char → Char → Option Nat
  | [], _ => none
  | x :: xs, c =>
    match rfindIdx xs c with
    | some i => some (i + 1)
    | none => if x == c then some 0 else none

/-- os.path.splitext (posixpath._splitext with sep "/" and extsep "."): the
extension starts at the last dot that lies after the last path separator,
provided at least one non-dot character of the base name precedes it. -/
def splitext (p : List Char) : List Char × List Char :=
  match rfindIdx p '.' with
  | none => (p, [])
  | some di =>
    let fstart : Nat := match rfindIdx p '/' with | none => 0 | some j => j + 1
    let dotAfterSep : Bool := match rfindIdx p '/' with | none => true | some j => decide (j < di)
    if dotAfterSep && ((p.drop fstart).take (di - fstart)).any (fun c => c != '.') then
      (p.take di, p.drop di)
    else (p, [])

/-- os.path.basename. -/
def basename (p : List Char) : List Char :=
  match rfindIdx p '/' with
  | none => p
  | some j => p.drop (j + 1)

/-- Python str.lower; the extensions compared against are ASCII, where
Char.toLower agrees with Python. -/
def lowerStr (s : List Char) : List Char := s.map Char.toLower

/-- Extension dispatch of `_load_docs` (ingest.py 41-59): the extension is
lowercased and compared against the four supported formats; anything else is
skipped. -/
def parserForExt (ext : List Char) : Option ParserKind :=
  let e := lowerStr ext
  if e = ".md".toList then some .markdown
  else if e = ".pdf".toList then some .pdf
  else if e = ".docx".toList then some .docx
  else if e = ".txt".toList then some .txt
  else none

/-- The parser `_load_docs` selects for a path. -/
def parserFor (path : List Char) : Option ParserKind :=
  parserForExt (splitext path).2

/-- One iteration of the `_load_docs` loop (ingest.py 37-63): skip
directories and hidden files, dispatch on the lowercased extension, and on a
parser exception log and skip the file; otherwise append its documents and
record its path. -/
def loadStep (acc : List Document × List String) (e : FSEntry) : List Document × List String :=
  if e.isDir || ((basename e.path.toList).head? == some '.') then acc
  else
    match parserFor e.path.toList with
    | none => acc
    | some k =>
      match e.parse k with
      | none => acc
      | some ds => (acc.1 ++ ds, acc.2 ++ [e.path])

/-- `_load_docs`: documents and successfully loaded file paths. -/
def loadDocs (entries : List FSEntry) : List Document × List String :=
  entries.foldl loadStep ([], [])

/-- The parser selected for this entry raises (the except branch of
`_load_docs`). -/
def parseRaises (e : FSEntry) : Bool :=
  match parserFor e.path.toList with
  | some k => (e.parse k).isNone
  | none => false

/-- constants.py line 10. -/
def CHUNK_SIZE : Nat := 500

/-- constants.py line 11. -/
def CHUNK_OVERLAP : Nat := 100

/-- Default separator list of RecursiveCharacterTextSplitter. -/
def SEPARATORS : List (List Char) := [['\n', '\n'], ['\n'], [' '], []]

/-- Scanner behind _split_text_with_regex for a literal separator: split the
text at each leftmost non-overlapping occurrence (pieces exclude the
separator; `skip` counts separator characters still to be consumed after a
match, `acc` the current piece reversed). -/
def splitOnSepGo (sep : List Char) : List Char → Nat → List Char → List (List Char)
  | [], _, acc => [acc.reverse]
  | _ :: rest, Nat.succ skip, acc => splitOnSepGo sep rest skip acc
  | c :: rest, 0, acc =>
    if !sep.isEmpty && sep.isPrefixOf (c :: rest) then
      acc.reverse :: splitOnSepGo sep rest (sep.length - 1) []
    else
      splitOnSepGo sep rest 0 (c :: acc)

/-- _split_text_with_regex(text, re.escape(separator), keep_separator=True):
with a nonempty separator the matches are retained, each attached to the
front of the following piece; with the empty separator the text becomes its
list of characters; empty pieces are dropped. -/
def splitTextWithSep (sep : List Char) (text : List Char) : List (List Char) :=
  if sep.isEmpty then
    (text.map (fun c => [c])).filter (fun l => !l.isEmpty)
  else
    match splitOnSepGo sep text 0 [] with
    | [] => []
    | t0 :: ts => (t0 :: ts.map (fun t => sep ++ t)).filter (fun l => !l.isEmpty)

/-- The popping while-loop of TextSplitter._merge_splits; `dLen` is the
length of the incoming split and `sepLen` the separator length.  Python
never reaches an empty current_doc while the condition still holds (total is
the summed length of current_doc), so the empty case stops. -/
def mergePop (cs ov sepLen dLen : Nat) : List (List Char) → Nat → List (List Char) × Nat
  | [], total => ([], total)
  | x :: xs, total =>
    if total > ov ∨ (total + dLen + (if (x :: xs).length > 0 then sepLen else 0) > cs ∧ total > 0) then
      mergePop cs ov sepLen dLen xs (total - (x.length + (if (x :: xs).length > 1 then sepLen else 0)))
    else (x :: xs, total)

/-- TextSplitter._join_docs: join with the separator, strip (the default
strip_whitespace is left on), drop an empty result. -/
def joinDocs (docs : List (List Char)) (sep : List Char) : Option (List Char) :=
  let text := pyStrip (List.intercalate sep docs)
  if text.isEmpty then none else some text

/-- One iteration of the for-loop of TextSplitter._merge_splits.  State:
(emitted docs, current_doc, total). -/
def mergeStep (cs ov : Nat) (sep : List Char)
    (st : List (List Char) × List (List Char) × Nat) (d : List Char) :
    List (List Char) × List (List Char) × Nat :=
  let docs := st.1
  let cur := st.2.1
  let total := st.2.2
  let sepLen := sep.length
  let dLen := d.length
  let st1 :=
    if total + dLen + (if cur.length > 0 then sepLen else 0) > cs then
      if cur.length > 0 then
        let docs1 := match joinDocs cur sep with
          | none => docs
          | some doc => docs ++ [doc]
        let pr := mergePop cs ov sepLen dLen cur total
        (docs1, pr.1, pr.2)
      else (docs, cur, total)
    else (docs, cur, total)
  let cur1 := st1.2.1 ++ [d]
  (st1.1, cur1, st1.2.2 + dLen + (if cur1.length > 1 then sepLen else 0))

/-- TextSplitter._merge_splits. -/
def mergeSplits (cs ov : Nat) (sep : List Char) (splits : List (List Char)) : List (List Char) :=
  let st := splits.foldl (mergeStep cs ov sep) ([], [], 0)
  match joinDocs st.2.1 sep with
  | none => st.1
  | some doc => st.1 ++ [doc]

/-- The merging for-loop of RecursiveCharacterTextSplitter._split_text over
the splits: a split shorter than chunk_size accumulates in `good`
(_good_splits in the source); a longer split first flushes the accumulated
merge and then is either appended as-is (no separators remain:
recurse = none) or split recursively (recurse = some f, the recursion on the
remaining separators).  The merge separator is "" because keep_separator is
set. -/
def processSplits (cs ov : Nat) (recurse : Option (List Char → List (List Char))) :
    List (List Char) → List (List Char) → List (List Char)
  | [], good => if good.isEmpty then [] else mergeSplits cs ov [] good
  | s :: rest, good =>
    if s.length < cs then
      processSplits cs ov recurse rest (good ++ [s])
    else
      let flushed := if good.isEmpty then [] else mergeSplits cs ov [] good
      match recurse with
      | none => flushed ++ s :: processSplits cs ov recurse rest []
      | some f => flushed ++ f s ++ processSplits cs ov recurse rest []

/-- RecursiveCharacterTextSplitter._split_text.  The separator-selection loop
at the top of the source function is fused into the list recursion: the
chosen separator is the first one that is empty or occurs in the text, with
the remaining separators kept for the recursion on long splits; when a
nonempty, non-final separator does not occur, the call computes exactly what
it would on the remaining separators, which is the final recursive case; a
final non-occurring separator is the fallback default (new_separators then
stays empty). -/
def splitTextRec (cs ov : Nat) : List (List Char) → List Char → List (List Char)
  | [], _ => []
  | s :: rest, text =>
    if s.isEmpty then
      processSplits cs ov none (splitTextWithSep [] text) []
    else if containsSeq s text then
      processSplits cs ov
        (match rest with
         | [] => none
         | _ :: _ => some (fun t => splitTextRec cs ov rest t))
        (splitTextWithSep s text) []
    else
      match rest with
      | [] => processSplits cs ov none (splitTextWithSep s text) []
      | _ :: _ => splitTextRec cs ov rest text

/-- split_text of RecursiveCharacterTextSplitter(chunk_size=CHUNK_SIZE,
chunk_overlap=CHUNK_OVERLAP) as constructed in `_chunk` (ingest.py 68-78). -/
def splitText (text : List Char) : List (List Char) :=
  splitTextRec CHUNK_SIZE CHUNK_OVERLAP SEPARATORS text

/-- `_chunk` / split_documents: each document is split and every chunk keeps
the parent metadata. -/
def chunkDocs (docs : List Document) : List Document :=
  (docs.map (fun d => (splitText d.pageContent).map
      (fun c => { pageContent := c, source := d.source : Document }))).flatten

/-- State of the external vector store through the interface the code calls
(spec §6: index-exists(name) -> bool, build-index(name, params)). -/
structure VectorStoreState where
  indexes : List String
deriving DecidableEq

/-- constants.py line 6. -/
def INDEX_NAME : String := "hnsw_index"

/-- store.ais_valid_index(name): the index of that name exists in the
durable store state. -/
def aisValidIndex (st : VectorStoreState) (name : String) : Bool :=
  st.indexes.contains name

/-- store.aapply_vector_index(index): the HNSW index of that name is built. -/
def aapplyVectorIndex (st : VectorStoreState) (name : String) : VectorStoreState :=
  { st with indexes := st.indexes ++ [name] }

/-- `_create_index` (ingest.py 84-97): return early when the index already
exists, otherwise build it.  The Bool records whether a build was
performed. -/
def createIndex (st : VectorStoreState) : VectorStoreState × Bool :=
  if aisValidIndex st INDEX_NAME then (st, false)
  else (aapplyVectorIndex st INDEX_NAME, true)

/-- The statistics dict returned by run_ingest_async (ingest.py 120-124):
document count, chunk count and the list of loaded files. -/
structure IngestStats where
  documents : Nat
  chunks : Nat
  files : List String
deriving DecidableEq

/-- run_ingest_async without the external store I/O: load, chunk, report the
statistics (the store write appends the chunks and does not change the
returned stats). -/
def runIngest (entries : List FSEntry) : IngestStats :=
  let lr := loadDocs entries
  let chunks := chunkDocs lr.1
  { documents := lr.1.length, chunks := chunks.length, files := lr.2 }

/-- The `_ingest_last` record of chainlit_app.py 24-30; statuses are the
literal strings the code stores. -/
structure IngestJob where
  status : String
  startedAt : Option Nat
  finishedAt : Option Nat
  stats : Option IngestStats
  error : Option String
deriving DecidableEq

/-- Lifecycle of the `_ingest_task` asyncio task: no task yet; task created
by asyncio.create_task but its body not yet scheduled; body past its initial
status update; coroutine returned (task.done() is true exactly in the last
phase). -/
inductive TaskPhase
  | noTask
  | created
  | running
  | finished
deriving DecidableEq

/-- Process-wide mutable state of chainlit_app.py: the job record and the
task. -/
structure AppState where
  job : IngestJob
  phase : TaskPhase
deriving DecidableEq

/-- Module load: `_ingest_last` as initialised, no task. -/
def initialState : AppState :=
  { job := { status := "idle", startedAt := none, finishedAt := none,
             stats := none, error := none },
    phase := .noTask }

/-- Outcome of the /ingest command. -/
inductive StartResult
  | started
  | alreadyRunning
deriving DecidableEq

/-- The /ingest branch of handle_command (chainlit_app.py 216-226): when a
task exists and is not done, the call is rejected with the already-running
message and nothing else happens; otherwise a fresh task is created.  The
job record `_ingest_last` is not modified in either branch. -/
def startIngest (s : AppState) : StartResult × AppState :=
  if s.phase = .created ∨ s.phase = .running then (.alreadyRunning, s)
  else (.started, { s with phase := .created })

/-- The initial update of `_ingest_job` (chainlit_app.py 41-47): all five
fields replaced. -/
def beginJob (_ : AppState) (now : Nat) : AppState :=
  { job := { status := "running", startedAt := some now, finishedAt := none,
             stats := none, error := none },
    phase := .running }

/-- The success update of `_ingest_job` (chainlit_app.py 54-58). -/
def finishJobOk (s : AppState) (now : Nat) (stats : IngestStats) : AppState :=
  { job := { s.job with status := "succeeded", finishedAt := some now, stats := some stats },
    phase := .finished }

/-- The failure update of `_ingest_job` (chainlit_app.py 61-65). -/
def finishJobErr (s : AppState) (now : Nat) (e : String) : AppState :=
  { job := { s.job with status := "failed", finishedAt := some now, error := some e },
    phase := .finished }

/-- Atomic events of the single-threaded, cooperatively scheduled app: a
/ingest command arriving, the created task body reaching its first update,
and the task body finishing with success or failure. -/
inductive AppStep : AppState → AppState → Prop
  | start (s : AppState) : AppStep s (startIngest s).2
  | beginTask (s : AppState) (now : Nat) (h : s.phase = .created) :
      AppStep s (beginJob s now)
  | finishOk (s : AppState) (now : Nat) (stats : IngestStats) (h : s.phase = .running) :
      AppStep s (finishJobOk s now stats)
  | finishErr (s : AppState) (now : Nat) (e : String) (h : s.phase = .running) :
      AppStep s (finishJobErr s now e)

/-- States reachable from process start. -/
inductive Reachable : AppState → Prop
  | init : Reachable initialState
  | step {s t : AppState} : Reachable s → AppStep s t → Reachable t

/-- Status transitions the claimed lifecycle allows for one step: either the
job record is untouched, or it moves to running (with a start time recorded
and the completion fields cleared), or from running to succeeded with stats
and a finish time, or from running to failed with an error and a finish
time. -/
def statusTrans (s t : AppState) : Prop :=
  t.job = s.job
  ∨ (s.job.status ≠ "running" ∧ t.job.status = "running" ∧
      t.job.startedAt.isSome ∧ t.job.finishedAt = none ∧ t.job.stats = none ∧ t.job.error = none)
  ∨ (s.job.status = "running" ∧ t.job.status = "succeeded" ∧
      t.job.stats.isSome ∧ t.job.finishedAt.isSome)
  ∨ (s.job.status = "running" ∧ t.job.status = "failed" ∧
      t.job.error.isSome ∧ t.job.finishedAt.isSome)

/-- RedisCache as installed in rag.py 40-55: an exact-match LLM cache from
the (prompt, llm_string) pair to the cached response; rag.py itself labels
it a standard Redis cache with exact match caching. -/
structure LLMCache where
  entries : List ((String × String) × String)
deriving DecidableEq

/-- Cache lookup: hits exactly when a stored key equals the (prompt,
llm_string) pair. -/
def cacheLookup (c : LLMCache) (prompt llmString : String) : Option String :=
  (c.entries.find? (fun e => e.1 == (prompt, llmString))).map (fun e => e.2)

/-- Cache update: store under the exact key (newest entry wins lookup). -/
def cacheUpdate (c : LLMCache) (prompt llmString answer : String) : LLMCache :=
  { entries := ((prompt, llmString), answer) :: c.entries }

/-- constants.py line 112.  rag.py imports this constant but never passes it
to the installed RedisCache, which takes no threshold. -/
def REDIS_CACHE_DISTANCE_THRESHOLD : Rat := 4 / 5

/-- Follows the words of the spec (§3 CacheEntry, §4.9), stated for contrast
with cacheLookup: entries keyed by a similarity fingerprint; a stored entry
whose fingerprint is within the distance threshold of the query fingerprint
is returned.  Fingerprints and the threshold are abstracted to Nat. -/
def specSemanticLookup (fingerprint : String → Nat) (threshold : Nat)
    (entries : List (Nat × String)) (q : String) : Option String :=
  (entries.find? (fun e =>
    decide (max e.1 (fingerprint q) - min e.1 (fingerprint q) ≤ threshold))).map (fun e => e.2)

/-- The two ways `_build_chain` can end up retrieving. -/
inductive RetrieverKind
  | base
  | reranked
deriving DecidableEq

/-- Environment and failure modes of the optional Cohere stage: the
credential (os.getenv COHERE_API_KEY), whether CohereRerank(...) raises at
construction time, and whether the reranking service is reachable when
invoked at question time. -/
structure RerankEnv where
  cohereApiKey : Option String
  constructorRaises : Bool
  serviceUp : Bool

/-- The reranker wiring of `_build_chain` (rag.py 83-100): without a
credential the base retriever is used; with one, a construction failure is
caught and the base retriever is used; otherwise the compression retriever
wraps the base retriever. -/
def selectRetriever (env : RerankEnv) : RetrieverKind :=
  match env.cohereApiKey with
  | none => .base
  | some _ => if env.constructorRaises then .base else .reranked

/-- Retrieval through the selected retriever at question time.  The base
retriever returns the vector-search candidates unchanged.  The compression
retriever calls the Cohere service on every query (`rerank` is the reordering
and truncation done by the service); answer_with_docs_async (rag.py 108-123) puts no
handler around the chain invocation, so a service error there surfaces as an
exception to the caller. -/
def retrieveDocs (env : RerankEnv) (rerank : List Document → List Document)
    (candidates : List Document) : Except String (List Document) :=
  match selectRetriever env with
  | .base => .ok candidates
  | .reranked =>
    if env.serviceUp then .ok (rerank candidates) else .error "CohereRerank service error"

/-- Source extraction of answer_with_docs_async (rag.py 113-117):
sorted on the set of d.metadata source values, that is, the distinct source
identifiers in ascending order (insertionSort is extensionally the same sort
that Python applies). -/
def sourcesOf (docs : List Document) : List String :=
  List.insertionSort (fun a b => a ≤ b) (docs.map (fun d => d.source)).dedup

/-- constants.py lines 29-66, verbatim. -/
def SYSTEM_PROMPT : String := "\nYou are CivicLens AI and Executive Summarizer, a precise, non-partisan knowledge assistant designed to advance AI education, civic literacy, and responsible governance for America’s future.\n\nMission Context:\nCivicLens AI supports the national challenge of “Advancing Artificial Intelligence (AI) Education for American Youth” by transforming complex government documents—such as U.S. \nExecutive Orders—into accurate, age-appropriate, and plain-language explanations. \n\nThe system serves multiple audiences, including youth (ages 10–18) and federal leadership, without political persuasion or advocacy.\n\nCore Purpose:\n- Help young Americans understand how government decisions affect their education, opportunities, and future\n- Support policymakers with clear, plain-English summaries of complex policy documents\n- Demonstrate responsible, ethical, and transparent use of AI in civic education\n\nOperating Rules:\n- Use ONLY the information explicitly provided in the supplied context\n- Do NOT add outside knowledge, interpretation, speculation, or opinion\n- Carefully review ALL context passages before answering\n- Cite values, dates, names, codes, titles, and identifiers exactly as written\n- Preserve original wording when referencing official terms or labels\n- Distinguish clearly between numeric values, identifiers, dates, and descriptive text\n- If multiple records exist, prioritize the most recent by date unless instructed otherwise\n- If the answer is not present in the context, respond exactly:\n  “I don’t know based on the available documents.”\n\nEthics & Safety Constraints:\n- No political advocacy or persuasion\n- No partisan framing or bias\n- Age-appropriate, neutral explanations\n- Transparent, explainable outputs suitable for educational and governmental use\n- Human oversight assumed for high-impact decisions\n\nTone & Style:\n- Clear, factual, and concise\n- Plain language where possible, without altering meaning\n- Educational and neutral, suitable for civic learning environments\n\n"

/-- USER_PROMPT_TEMPLATE (constants.py 69-88) up to its first placeholder. -/
def UP_SEG1 : String := "Question: "

/-- USER_PROMPT_TEMPLATE between the input and context placeholders. -/
def UP_SEG2 : String := "\n\nContext from documents:\n"

/-- USER_PROMPT_TEMPLATE after the context placeholder; contains the
instruction that mandates the fallback phrase. -/
def UP_SEG3 : String := "\n\nInstructions:\n1. Search through ALL context passages for information relevant to the question\n2. Extract the answer directly from the context only\n3. Quote or reference specific values, dates, names, titles, codes, or identifiers exactly as written\n4. Respect labels, headings, and structured fields present in the source text\n5. Clearly distinguish between different data types (e.g., dates vs. numeric values vs. IDs)\n6. Do NOT infer, summarize beyond the text, or use outside knowledge\n7. If the information is not explicitly stated in the context, respond:\n   “I don’t know based on the available documents.”\n   \n8. Provide a summary that captures the main ideas, key points, and important details.\n9. Keep the summary clear, concise, and easy to understand.\n10. Highlight any actionable items, conclusions, or recommendations if present.\n\n"

/-- USER_PROMPT_TEMPLATE (constants.py 69-88), verbatim: the segments around
the two placeholders. -/
def USER_PROMPT_TEMPLATE : String :=
  UP_SEG1 ++ "{input}" ++ UP_SEG2 ++ "{context}" ++ UP_SEG3

/-- The fallback phrase exactly as it appears in both templates: the
apostrophe is the typographic U+2019 character. -/
def FALLBACK_PHRASE : String := "I don’t know based on the available documents."

/-- ASCII apostrophe, code point 39. -/
def asciiApostrophe : Char := Char.ofNat 39

/-- The fallback phrase as the claim states it, with the ASCII apostrophe. -/
def claimedFallback : String :=
  "I don" ++ String.singleton asciiApostrophe ++ "t know based on the available documents."

/-- str.format of the user template: both placeholders substituted. -/
def formatUserPrompt (input ctx : String) : String :=
  UP_SEG1 ++ input ++ UP_SEG2 ++ ctx ++ UP_SEG3

/-- Context rendering of create_stuff_documents_chain: page contents joined
by the default document separator. -/
def renderContext (docs : List Document) : String :=
  String.intercalate "\n\n" (docs.map (fun d => String.mk d.pageContent))

/-- One synthesis call (rag.py PROMPT with create_stuff_documents_chain):
the external language model receives the fixed system prompt and the
rendered user prompt and produces the answer text. -/
def synthesize (llm : String → String → String) (question : String) (docs : List Document) : String :=
  llm SYSTEM_PROMPT (formatUserPrompt question (renderContext docs))

/-- A language model that honours the mandate of the fixed template: on the
rendered prompt with empty context it responds with exactly the mandated
phrase.  The model is an external service (spec §6); this predicate is the
compliance assumption §4.10 makes about it. -/
def ObeysFallbackMandate (llm : String → String → String) : Prop :=
  ∀ q, llm SYSTEM_PROMPT (formatUserPrompt q "") = FALLBACK_PHRASE

/-- Shared-overlap test: the last k characters of a equal the first k
characters of b, for some k of at least n (bounded by both lengths). -/
def sharedOverlap (k : Nat) (a b : List Char) : Bool :=
  decide (k ≤ a.length) && decide (k ≤ b.length) && (a.drop (a.length - k) == b.take k)

/-- Some common suffix-prefix of length at least n exists between a and b. -/
def hasOverlapGE (n : Nat) (a b : List Char) : Bool :=
  (List.range (min a.length b.length + 1)).any (fun k => decide (n ≤ k) && sharedOverlap k a b)

/-- Summed length of a list of pieces (the quantity `total` of _merge_splits
tracks for the current_doc). -/
def sumLen (l : List (List Char)) : Nat := (l.map List.length).sum

/-- Invariant of the _merge_splits fold state (emitted docs, current_doc,
total): emitted docs are within the chunk size, total is the summed length
of current_doc, and total is within the chunk size. -/
def MergeInv (cs : Nat) (st : List (List Char) × List (List Char) × Nat) : Prop :=
  (∀ c ∈ st.1, c.length ≤ cs) ∧ st.2.2 = sumLen st.2.1 ∧ st.2.2 ≤ cs

/-- Invariant tying the job record to the task lifecycle: the status string
is running exactly while the task body is between its first and last update;
only the four status strings occur; running states carry a start time;
completed states carry their stats or error and a finish time. -/
def JobInv (s : AppState) : Prop :=
  (s.job.status = "running" ↔ s.phase = .running)
  ∧ s.job.status ∈ (["idle", "running", "succeeded", "failed"] : List String)
  ∧ (s.job.status = "running" → s.job.startedAt.isSome)
  ∧ (s.job.status = "succeeded" → s.job.stats.isSome ∧ s.job.finishedAt.isSome)
  ∧ (s.job.status = "failed" → s.job.error.isSome ∧ s.job.finishedAt.isSome)

/-- A text file whose parser succeeds with one document. -/
def okTxtEntry : FSEntry :=
  { path := "data/a.txt", isDir := false,
    parse := fun _ => some [{ pageContent := "hello".toList, source := "data/a.txt" }] }

/-- A PDF file whose parser raises. -/
def badPdfEntry : FSEntry :=
  { path := "data/b.pdf", isDir := false, parse := fun _ => none }

/-! Helper lemmas. -/

theorem isPrefixOfSound : ∀ {p l : List Char}, p.isPrefixOf l = true → ∃ t, p ++ t = l := by
  intro p
  induction p with
  | nil => exact fun {l} _ => ⟨l, rfl⟩
  | cons a p ih =>
    intro l h
    cases l with
    | nil => simp [List.isPrefixOf] at h
    | cons b l2 =>
      simp only [List.isPrefixOf, Bool.and_eq_true, beq_iff_eq] at h
      obtain ⟨t, ht⟩ := ih h.2
      exact ⟨t, by rw [List.cons_append, ht, h.1]⟩

theorem containsSeq_sound {pat hay : List Char} (h : containsSeq pat hay = true) :
    pat <:+: hay := by
  induction hay with
  | nil =>
    simp [containsSeq, List.isEmpty_iff] at h
    simp [h]
  | cons c rest ih =>
    simp only [containsSeq, Bool.or_eq_true] at h
    rcases h with h | h
    · obtain ⟨t, ht⟩ := isPrefixOfSound h
      exact ⟨[], t, by simpa using ht⟩
    · obtain ⟨u, v, huv⟩ := ih h
      exact ⟨c :: u, v, by rw [← huv]; simp⟩

theorem infix_append_left {l c : List Char} (a : List Char) (h : l <:+: c) :
    l <:+: a ++ c := by
  obtain ⟨u, v, huv⟩ := h
  exact ⟨a ++ u, v, by rw [← huv]; simp [List.append_assoc]⟩

theorem infix_append_right {l c : List Char} (b : List Char) (h : l <:+: c) :
    l <:+: c ++ b := by
  obtain ⟨u, v, huv⟩ := h
  exact ⟨u, v ++ b, by rw [← huv]; simp [List.append_assoc]⟩

theorem loadStep_skip {e : FSEntry} (acc : List Document × List String)
    (he : parseRaises e = true) : loadStep acc e = acc := by
  rw [parseRaises] at he
  rw [loadStep]
  split
  · rfl
  · cases hp : parserFor e.path.toList with
    | none => rfl
    | some k =>
      rw [hp] at he
      simp at he
      simp [he]

theorem loadDocs_foldl_skip : ∀ (entries : List FSEntry),
    (∀ x ∈ entries, parseRaises x = true) →
    ∀ acc : List Document × List String, entries.foldl loadStep acc = acc := by
  intro entries
  induction entries with
  | nil => exact fun _ _ => rfl
  | cons e rest ih =>
    intro h acc
    rw [List.foldl_cons, loadStep_skip acc (h e (by simp))]
    exact ih (fun x hx => h x (by simp [hx])) acc

/-! Job state machine: invariant preservation. -/

theorem jobInv_init : JobInv initialState := by
  refine ⟨by decide, by decide, ?_, ?_, ?_⟩ <;> intro h <;> simp [initialState] at h

theorem jobInv_step {s t : AppState} (hinv : JobInv s) (hstep : AppStep s t) : JobInv t := by
  obtain ⟨hrun, hmem, hstart, hsucc, hfail⟩ := hinv
  cases hstep with
  | start =>
    unfold startIngest
    split
    · exact ⟨hrun, hmem, hstart, hsucc, hfail⟩
    · rename_i hph
      refine ⟨?_, hmem, hstart, hsucc, hfail⟩
      constructor
      · intro h
        exact absurd (Or.inr (hrun.mp h)) hph
      · intro h
        simp at h
  | beginTask now h =>
    refine ⟨by simp [beginJob], by simp [beginJob], ?_, ?_, ?_⟩
    · intro _; rfl
    · intro hc; simp [beginJob] at hc
    · intro hc; simp [beginJob] at hc
  | finishOk now stats h =>
    refine ⟨?_, by simp [finishJobOk], ?_, ?_, ?_⟩
    · simp [finishJobOk]
    · intro hc; simp [finishJobOk] at hc
    · intro _; simp [finishJobOk]
    · intro hc; simp [finishJobOk] at hc
  | finishErr now e h =>
    refine ⟨?_, by simp [finishJobErr], ?_, ?_, ?_⟩
    · simp [finishJobErr]
    · intro hc; simp [finishJobErr] at hc
    · intro hc; simp [finishJobErr] at hc
    · intro _; simp [finishJobErr]

theorem reachable_jobInv {s : AppState} (hs : Reachable s) : JobInv s := by
  induction hs with
  | init => exact jobInv_init
  | step _ hstep ih => exact jobInv_step ih hstep

/-! Claim theorems. -/

/-- Claim C1, counterexample: the installed cache is exact-match.  A question
differing from the stored one only by a trailing space (similarity distance
zero under any content fingerprint, in particular within the 0.8 threshold;
the spec-worded semantic lookup with such a fingerprint does hit) is a cache
miss and is recomputed; only the byte-identical prompt hits. -/
theorem c1_counterexample :
    cacheLookup (cacheUpdate { entries := [] } "What is CivicLens?" "gpt-4o" "cached answer")
      "What is CivicLens? " "gpt-4o" = none
    ∧ cacheLookup (cacheUpdate { entries := [] } "What is CivicLens?" "gpt-4o" "cached answer")
      "What is CivicLens?" "gpt-4o" = some "cached answer"
    ∧ ("What is CivicLens?" : String) ≠ "What is CivicLens? "
    ∧ specSemanticLookup (fun _ => 0) 0 [(0, "cached answer")] "What is CivicLens? "
        = some "cached answer" :=
  ⟨by decide, by decide, by decide, by decide⟩

/-- Claim C1, amended: the response cache installed by rag.py is an
exact-match LLM cache keyed by the exact (prompt, llm_string) pair: after
storing an answer, a later lookup returns it exactly when the key pair is
equal, and otherwise falls through to the previous cache contents; textually
distinct near-duplicate questions are recomputed, and the distance threshold
constant plays no part in lookup. -/
theorem c1_exact_match_cache (c : LLMCache) (p l a p2 l2 : String) :
    cacheLookup (cacheUpdate c p l a) p2 l2 =
      (if (p2, l2) = (p, l) then some a else cacheLookup c p2 l2) := by
  by_cases h : (p2, l2) = (p, l)
  · rw [if_pos h]
    show (List.find? (fun e => e.1 == (p2, l2)) (((p, l), a) :: c.entries)).map
      (fun e => e.2) = some a
    rw [@List.find?_cons_of_pos ((String × String) × String)
      (fun e => e.1 == (p2, l2)) ((p, l), a) c.entries (beq_iff_eq.mpr h.symm)]
    rfl
  · rw [if_neg h]
    show (List.find? (fun e => e.1 == (p2, l2)) (((p, l), a) :: c.entries)).map
      (fun e => e.2) = cacheLookup c p2 l2
    rw [@List.find?_cons_of_neg ((String × String) × String)
      (fun e => e.1 == (p2, l2)) ((p, l), a) c.entries (fun hb => h (beq_iff_eq.mp hb).symm)]
    rfl

/-- Witness for c1_exact_match_cache at a concrete cache and key. -/
theorem c1_witness :
    cacheLookup (cacheUpdate { entries := [] } "q" "m" "a") "q" "m" = some "a" := by
  rw [c1_exact_match_cache { entries := [] } "q" "m" "a" "q" "m"]
  decide

/-- Claim C3: index creation is idempotent.  Two successive calls on any
store state perform the build at most once; the second call is always a
no-op on the state produced by the first; and when an index of the same
name already exists, the call changes nothing and reports no build. -/
theorem c3_create_index_idempotent (st : VectorStoreState) :
    ((createIndex st).2.toNat + (createIndex (createIndex st).1).2.toNat ≤ 1)
    ∧ createIndex (createIndex st).1 = ((createIndex st).1, false)
    ∧ (aisValidIndex st INDEX_NAME = true → createIndex st = (st, false)) := by
  have hnoop : ∀ s2 : VectorStoreState, aisValidIndex s2 INDEX_NAME = true →
      createIndex s2 = (s2, false) := by
    intro s2 h2
    unfold createIndex
    rw [if_pos h2]
  have hsecond : aisValidIndex (createIndex st).1 INDEX_NAME = true := by
    by_cases h : aisValidIndex st INDEX_NAME = true
    · rw [hnoop st h]
      exact h
    · unfold createIndex
      rw [if_neg h]
      show (st.indexes ++ [INDEX_NAME]).contains INDEX_NAME = true
      rw [List.elem_iff]
      simp
  refine ⟨?_, hnoop _ hsecond, hnoop st⟩
  rw [hnoop _ hsecond]
  cases hb : (createIndex st).2 <;> simp

/-- Witness for c3_create_index_idempotent: an existing index is left alone,
and after a fresh build the repeat call does not build. -/
theorem c3_witness :
    createIndex { indexes := ["hnsw_index"] } = ({ indexes := ["hnsw_index"] }, false)
    ∧ (createIndex (createIndex { indexes := [] }).1).2 = false := by
  constructor
  · exact (c3_create_index_idempotent { indexes := ["hnsw_index"] }).2.2 (by decide)
  · rw [(c3_create_index_idempotent { indexes := [] }).2.1]

/-- Claim C4: in every reachable state whose ingestion status is running, a
/ingest start call is rejected immediately as already running and returns
the state, job record included, completely unchanged. -/
theorem c4_second_start_rejected (s : AppState) (hs : Reachable s)
    (hr : s.job.status = "running") :
    startIngest s = (StartResult.alreadyRunning, s) := by
  have hph : s.phase = .running := (reachable_jobInv hs).1.mp hr
  unfold startIngest
  rw [if_pos (Or.inr hph)]

/-- Witness for c4_second_start_rejected on the reachable state obtained by
starting a job and letting its body begin. -/
theorem c4_witness :
    startIngest (beginJob (startIngest initialState).2 7) =
      (StartResult.alreadyRunning, beginJob (startIngest initialState).2 7) :=
  c4_second_start_rejected _
    (Reachable.step (Reachable.step Reachable.init (AppStep.start initialState))
      (AppStep.beginTask (startIngest initialState).2 7 (by decide)))
    (by decide)

/-- Claim C5: every reachable state carries one of the four statuses idle,
running, succeeded, failed, and every step either leaves the job record
untouched, or moves a non-running job to running while recording a start
time and clearing the completion fields, or moves a running job to
succeeded with stats and a finish time, or to failed with an error and a
finish time; no other transition is possible. -/
theorem c5_job_lifecycle (s : AppState) (hs : Reachable s) :
    s.job.status ∈ (["idle", "running", "succeeded", "failed"] : List String)
    ∧ ∀ t, AppStep s t → statusTrans s t := by
  have hinv := reachable_jobInv hs
  refine ⟨hinv.2.1, ?_⟩
  intro t hstep
  cases hstep with
  | start =>
    left
    unfold startIngest
    split <;> rfl
  | beginTask now h =>
    right; left
    refine ⟨?_, rfl, rfl, rfl, rfl, rfl⟩
    intro hr
    rw [hinv.1.mp hr] at h
    simp at h
  | finishOk now stats h =>
    right; right; left
    exact ⟨hinv.1.mpr h, rfl, rfl, rfl⟩
  | finishErr now e h =>
    right; right; right
    exact ⟨hinv.1.mpr h, rfl, rfl, rfl⟩

/-- Witness for c5_job_lifecycle at the initial state and its first step. -/
theorem c5_witness :
    initialState.job.status ∈ (["idle", "running", "succeeded", "failed"] : List String)
    ∧ statusTrans initialState (startIngest initialState).2 :=
  ⟨(c5_job_lifecycle initialState Reachable.init).1,
   (c5_job_lifecycle initialState Reachable.init).2 _ (AppStep.start initialState)⟩

/-- Claim C6: a file whose parser raises is logged and skipped: removing it
from the enumerated entries changes neither the returned documents nor the
returned file paths, so every other file is still loaded and the load
returns normally; in particular a directory in which every parser raises
loads to the empty result. -/
theorem c6_load_failure_isolated (pre post : List FSEntry) (e : FSEntry)
    (he : parseRaises e = true) :
    loadDocs (pre ++ e :: post) = loadDocs (pre ++ post)
    ∧ ∀ entries : List FSEntry, (∀ x ∈ entries, parseRaises x = true) →
        loadDocs entries = ([], []) := by
  constructor
  · unfold loadDocs
    rw [List.foldl_append, List.foldl_append, List.foldl_cons,
      loadStep_skip (pre.foldl loadStep ([], [])) he]
  · intro entries h
    exact loadDocs_foldl_skip entries h ([], [])

/-- Witness for c6_load_failure_isolated: a good text file next to a raising
PDF loads exactly as the good file alone. -/
theorem c6_witness :
    loadDocs [okTxtEntry, badPdfEntry] = loadDocs [okTxtEntry]
    ∧ loadDocs [badPdfEntry] = ([], []) := by
  have h := c6_load_failure_isolated [okTxtEntry] [] badPdfEntry rfl
  exact ⟨h.1, h.2 [badPdfEntry] (by intro x hx; simp at hx; subst hx; rfl)⟩

/-- Claim C7, counterexample: with a credential present and construction
succeeding, a reranking-service failure at question time surfaces as an
exception from the retrieval step, so a reranker failure can raise past the
retrieval boundary. -/
theorem c7_counterexample :
    retrieveDocs { cohereApiKey := some "key", constructorRaises := false, serviceUp := false }
      (fun l => l) [] = Except.error "CohereRerank service error" := rfl

/-- Claim C7, amended: when the credential is absent, or construction of the
reranker fails, the stage is skipped entirely and the unranked candidate
list passes through unchanged without any exception; a service failure at
question time after successful construction, however, propagates. -/
theorem c7_rerank_degrades (env : RerankEnv) (rerank : List Document → List Document)
    (cands : List Document)
    (h : env.cohereApiKey = none ∨ env.constructorRaises = true) :
    retrieveDocs env rerank cands = Except.ok cands := by
  unfold retrieveDocs selectRetriever
  rcases h with h | h
  · rw [h]
  · rw [h]
    cases env.cohereApiKey <;> simp

/-- Witness for c7_rerank_degrades with the credential absent. -/
theorem c7_witness :
    retrieveDocs { cohereApiKey := none, constructorRaises := false, serviceUp := true }
      (fun l => l) [{ pageContent := ['x'], source := "a.txt" }] =
      Except.ok [{ pageContent := ['x'], source := "a.txt" }] :=
  c7_rerank_degrades _ _ _ (Or.inl rfl)

/-- Claim C8: the source list returned with an answer is sorted and
duplicate-free, contains exactly the source identifiers of the context
documents (so never one absent from them), and is empty on empty context. -/
theorem c8_sources_sorted_dedup (docs : List Document) :
    (sourcesOf docs).Sorted (fun a b : String => a ≤ b)
    ∧ (sourcesOf docs).Nodup
    ∧ (∀ s, s ∈ sourcesOf docs ↔ ∃ d ∈ docs, d.source = s)
    ∧ sourcesOf ([] : List Document) = [] := by
  refine ⟨List.sorted_insertionSort _ _, ?_, ?_, rfl⟩
  · exact ((List.perm_insertionSort _ _).nodup_iff).mpr (List.nodup_dedup _)
  · intro s
    unfold sourcesOf
    rw [(List.perm_insertionSort _ _).mem_iff, List.mem_dedup, List.mem_map]

/-- Witness for c8_sources_sorted_dedup on a two-document context. -/
theorem c8_witness :
    (sourcesOf [{ pageContent := ['x'], source := "b.txt" },
                { pageContent := ['y'], source := "a.txt" }]).Sorted (fun a b : String => a ≤ b)
    ∧ "a.txt" ∈ sourcesOf [{ pageContent := ['x'], source := "b.txt" },
                           { pageContent := ['y'], source := "a.txt" }] :=
  ⟨(c8_sources_sorted_dedup _).1,
   ((c8_sources_sorted_dedup _).2.2.1 "a.txt").mpr
     ⟨{ pageContent := ['y'], source := "a.txt" }, by simp, rfl⟩⟩

/-- Claim C9, counterexample: neither template contains the claimed
ASCII-apostrophe phrase; the phrase the templates mandate is the
typographic-apostrophe variant, which differs from the claimed string. -/
theorem c9_counterexample :
    containsSeq claimedFallback.toList SYSTEM_PROMPT.toList = false
    ∧ containsSeq claimedFallback.toList USER_PROMPT_TEMPLATE.toList = false
    ∧ claimedFallback ≠ FALLBACK_PHRASE
    ∧ containsSeq FALLBACK_PHRASE.toList SYSTEM_PROMPT.toList = true :=
  ⟨by decide, by decide, by decide, by decide⟩

/-- Claim C9, amended: the fixed templates mandate the exact fallback phrase
as written in the code, with the typographic apostrophe; that phrase occurs
verbatim in the system prompt and in every rendered user prompt, and a
language model honouring the mandate returns exactly that phrase when the
supplied context set is empty. -/
theorem c9_fallback_mandate (llm : String → String → String)
    (hllm : ObeysFallbackMandate llm) (q : String) :
    synthesize llm q [] = FALLBACK_PHRASE
    ∧ FALLBACK_PHRASE.toList <:+: (formatUserPrompt q (renderContext [])).toList
    ∧ FALLBACK_PHRASE.toList <:+: SYSTEM_PROMPT.toList := by
  have hseg : FALLBACK_PHRASE.toList <:+: UP_SEG3.toList :=
    containsSeq_sound (by decide)
  refine ⟨hllm q, ?_, containsSeq_sound (by decide)⟩
  show FALLBACK_PHRASE.toList <:+: (UP_SEG1 ++ q ++ UP_SEG2 ++ renderContext [] ++ UP_SEG3).toList
  have : (UP_SEG1 ++ q ++ UP_SEG2 ++ renderContext [] ++ UP_SEG3).toList =
      (UP_SEG1 ++ q ++ UP_SEG2 ++ renderContext []).toList ++ UP_SEG3.toList := by
    show ((UP_SEG1 ++ q ++ UP_SEG2 ++ renderContext []) ++ UP_SEG3).data = _
    rw [String.data_append]
    rfl
  rw [this]
  exact infix_append_left _ hseg

/-- Witness for c9_fallback_mandate with a compliant model. -/
theorem c9_witness :
    synthesize (fun _ _ => FALLBACK_PHRASE) "What is the mission?" [] = FALLBACK_PHRASE :=
  (c9_fallback_mandate (fun _ _ => FALLBACK_PHRASE) (fun _ => rfl) "What is the mission?").1

/-- Claim C10: extension dispatch is case-insensitive: whatever the letter
case of the extension of a path, when it lowercases to one of the four supported
extensions the file is dispatched to the parser of that format, exactly as if
the extension had been written in lowercase. -/
theorem c10_case_insensitive_dispatch (p : List Char) :
    (lowerStr (splitext p).2 = ".md".toList → parserFor p = some ParserKind.markdown)
    ∧ (lowerStr (splitext p).2 = ".pdf".toList → parserFor p = some ParserKind.pdf)
    ∧ (lowerStr (splitext p).2 = ".docx".toList → parserFor p = some ParserKind.docx)
    ∧ (lowerStr (splitext p).2 = ".txt".toList → parserFor p = some ParserKind.txt) := by
  unfold parserFor parserForExt
  refine ⟨?_, ?_, ?_, ?_⟩ <;> intro h <;> simp [h]

/-- Witness for c10_case_insensitive_dispatch: an uppercase .PDF file is
dispatched to the PDF parser. -/
theorem c10_witness :
    parserFor "data/Order.PDF".toList = some ParserKind.pdf :=
  (c10_case_insensitive_dispatch _).2.1 (by decide)

/-! Chunker length-bound lemmas. -/

theorem sumLen_nil : sumLen [] = 0 := rfl

theorem sumLen_cons (x : List Char) (xs : List (List Char)) :
    sumLen (x :: xs) = x.length + sumLen xs := by
  simp [sumLen]

theorem sumLen_append (a b : List (List Char)) :
    sumLen (a ++ b) = sumLen a + sumLen b := by
  simp [sumLen]

theorem pyStrip_length_le (s : List Char) : (pyStrip s).length ≤ s.length := by
  unfold pyStrip
  rw [List.length_reverse]
  calc ((s.dropWhile isPyWhitespace).reverse.dropWhile isPyWhitespace).length
      ≤ (s.dropWhile isPyWhitespace).reverse.length := (List.dropWhile_sublist _).length_le
    _ = (s.dropWhile isPyWhitespace).length := List.length_reverse _
    _ ≤ s.length := (List.dropWhile_sublist _).length_le

theorem intercalate_nil_length (l : List (List Char)) :
    (List.intercalate [] l).length = sumLen l := by
  unfold List.intercalate sumLen
  rw [List.length_flatten]
  induction l with
  | nil => rfl
  | cons x t ih =>
    cases t with
    | nil => simp [List.intersperse]
    | cons y t2 =>
      simp only [List.intersperse] at ih ⊢
      simp only [List.map_cons, List.sum_cons, List.length_nil] at ih ⊢
      omega

theorem joinDocs_some_le {cur : List (List Char)} {doc : List Char}
    (h : joinDocs cur [] = some doc) : doc.length ≤ sumLen cur := by
  simp only [joinDocs] at h
  split at h
  · exact absurd h (by simp)
  · have hd : pyStrip (List.intercalate [] cur) = doc := Option.some.inj h
    calc doc.length = (pyStrip (List.intercalate [] cur)).length := by rw [hd]
      _ ≤ (List.intercalate [] cur).length := pyStrip_length_le _
      _ = sumLen cur := intercalate_nil_length cur

theorem mergePop_cons (cs ov dLen : Nat) (x : List Char) (xs : List (List Char)) (total : Nat) :
    mergePop cs ov 0 dLen (x :: xs) total =
      if total > ov ∨ (total + dLen > cs ∧ total > 0) then
        mergePop cs ov 0 dLen xs (total - x.length)
      else (x :: xs, total) := by
  conv_lhs => rw [mergePop.eq_def]
  simp

theorem mergePop_spec (cs ov dLen : Nat) :
    ∀ (cur : List (List Char)) (total : Nat), total = sumLen cur →
    (mergePop cs ov 0 dLen cur total).2 = sumLen (mergePop cs ov 0 dLen cur total).1
    ∧ (mergePop cs ov 0 dLen cur total).2 ≤ total
    ∧ (mergePop cs ov 0 dLen cur total).2 ≤ ov
    ∧ ((mergePop cs ov 0 dLen cur total).2 + dLen ≤ cs ∨ (mergePop cs ov 0 dLen cur total).2 = 0) := by
  intro cur
  induction cur with
  | nil =>
    intro total ht
    rw [sumLen_nil] at ht
    subst ht
    exact ⟨rfl, le_refl _, Nat.zero_le _, Or.inr rfl⟩
  | cons x xs ih =>
    intro total ht
    rw [mergePop_cons]
    by_cases hc : total > ov ∨ (total + dLen > cs ∧ total > 0)
    · rw [if_pos hc]
      rw [sumLen_cons] at ht
      have ht' : total - x.length = sumLen xs := by omega
      obtain ⟨h1, h2, h3, h4⟩ := ih (total - x.length) ht'
      exact ⟨h1, h2.trans (Nat.sub_le _ _), h3, h4⟩
    · rw [if_neg hc]
      exact ⟨ht, le_refl _, by omega, by omega⟩

theorem mergeStep_nilsep (cs ov : Nat) (docs cur : List (List Char)) (total : Nat)
    (d : List Char) :
    mergeStep cs ov [] (docs, cur, total) d =
      if total + d.length > cs then
        if cur.length > 0 then
          ((match joinDocs cur [] with
            | none => docs
            | some doc => docs ++ [doc]),
           (mergePop cs ov 0 d.length cur total).1 ++ [d],
           (mergePop cs ov 0 d.length cur total).2 + d.length)
        else (docs, cur ++ [d], total + d.length)
      else (docs, cur ++ [d], total + d.length) := by
  by_cases h1 : total + d.length > cs <;> by_cases h2 : cur.length > 0 <;>
    simp [mergeStep, h1, h2]

theorem mergeStep_inv (cs ov : Nat) (d : List Char) (hd : d.length < cs)
    (st : List (List Char) × List (List Char) × Nat) (hinv : MergeInv cs st) :
    MergeInv cs (mergeStep cs ov [] st d) := by
  obtain ⟨docs, cur, total⟩ := st
  unfold MergeInv at hinv ⊢
  obtain ⟨hd0, ht0, hl0⟩ := hinv
  have hdocs : ∀ c ∈ docs, c.length ≤ cs := hd0
  have htot : total = sumLen cur := ht0
  have hle : total ≤ cs := hl0
  rw [mergeStep_nilsep]
  by_cases h1 : total + d.length > cs
  · rw [if_pos h1]
    by_cases h2 : cur.length > 0
    · rw [if_pos h2]
      have hpop := mergePop_spec cs ov d.length cur total htot
      refine ⟨?_, ?_, ?_⟩
      · intro c hc
        rcases hj : joinDocs cur [] with _ | doc
        · simp only [hj] at hc
          exact hdocs c hc
        · simp only [hj] at hc
          rcases List.mem_append.mp hc with hc | hc
          · exact hdocs c hc
          · have hcd : c = doc := by simpa using hc
            subst hcd
            calc c.length ≤ sumLen cur := joinDocs_some_le hj
              _ = total := htot.symm
              _ ≤ cs := hle
      · show (mergePop cs ov 0 d.length cur total).2 + d.length =
          sumLen ((mergePop cs ov 0 d.length cur total).1 ++ [d])
        rw [sumLen_append, sumLen_cons, sumLen_nil, ← hpop.1]
        omega
      · show (mergePop cs ov 0 d.length cur total).2 + d.length ≤ cs
        rcases hpop.2.2.2 with h | h <;> omega
    · rw [if_neg h2]
      have hcur : cur = [] := by
        cases cur with
        | nil => rfl
        | cons a b => simp at h2
      subst hcur
      rw [sumLen_nil] at htot
      refine ⟨hdocs, ?_, ?_⟩
      · show total + d.length = sumLen ([] ++ [d])
        rw [sumLen_append, sumLen_cons, sumLen_nil, htot]
        omega
      · show total + d.length ≤ cs
        omega
  · rw [if_neg h1]
    refine ⟨hdocs, ?_, ?_⟩
    · show total + d.length = sumLen (cur ++ [d])
      rw [sumLen_append, sumLen_cons, sumLen_nil, ← htot]
      omega
    · show total + d.length ≤ cs
      omega

theorem foldl_mergeStep_inv (cs ov : Nat) :
    ∀ (splits : List (List Char)), (∀ d ∈ splits, d.length < cs) →
    ∀ st, MergeInv cs st → MergeInv cs (splits.foldl (mergeStep cs ov []) st) := by
  intro splits
  induction splits with
  | nil => exact fun _ st h => h
  | cons d rest ih =>
    intro hsplits st h
    rw [List.foldl_cons]
    exact ih (fun x hx => hsplits x (by simp [hx])) _
      (mergeStep_inv cs ov d (hsplits d (by simp)) st h)

theorem mergeSplits_le (cs ov : Nat) (splits : List (List Char))
    (hsplits : ∀ d ∈ splits, d.length < cs) :
    ∀ c ∈ mergeSplits cs ov [] splits, c.length ≤ cs := by
  have hbase : MergeInv cs ([], [], 0) := ⟨by simp, rfl, Nat.zero_le _⟩
  have hinv := foldl_mergeStep_inv cs ov splits hsplits _ hbase
  unfold MergeInv at hinv
  obtain ⟨hdocs, htot, hle⟩ := hinv
  intro c hc
  simp only [mergeSplits] at hc
  rcases hj : joinDocs ((splits.foldl (mergeStep cs ov []) ([], [], 0)).2.1) [] with _ | doc
  · simp only [hj] at hc
    exact hdocs c hc
  · simp only [hj] at hc
    rcases List.mem_append.mp hc with hc | hc
    · exact hdocs c hc
    · have : c = doc := by simpa using hc
      subst this
      calc c.length ≤ sumLen ((splits.foldl (mergeStep cs ov []) ([], [], 0)).2.1) :=
            joinDocs_some_le hj
        _ ≤ cs := by rw [← htot]; exact hle

theorem splitTextWithSep_nil_mem {text s : List Char}
    (h : s ∈ splitTextWithSep [] text) : s.length = 1 := by
  unfold splitTextWithSep at h
  rw [if_pos (by rfl)] at h
  obtain ⟨hmem, _⟩ := List.mem_filter.mp h
  obtain ⟨c, _, rfl⟩ := List.mem_map.mp hmem
  rfl

theorem processSplits_le (cs ov : Nat) (recurse : Option (List Char → List (List Char)))
    (hrec : ∀ f, recurse = some f → ∀ s c, c ∈ f s → c.length ≤ cs) :
    ∀ (splits good : List (List Char)),
    (recurse = none → ∀ s ∈ splits, s.length < cs) →
    (∀ g ∈ good, g.length < cs) →
    ∀ c ∈ processSplits cs ov recurse splits good, c.length ≤ cs := by
  intro splits
  induction splits with
  | nil =>
    intro good _ hgood c hc
    unfold processSplits at hc
    split at hc
    · simp at hc
    · exact mergeSplits_le cs ov good hgood c hc
  | cons s rest ih =>
    intro good hnone hgood c hc
    unfold processSplits at hc
    by_cases hs : s.length < cs
    · rw [if_pos hs] at hc
      refine ih (good ++ [s]) (fun hr s' hs' => hnone hr s' (by simp [hs'])) ?_ c hc
      intro g hg
      rcases List.mem_append.mp hg with hg | hg
      · exact hgood g hg
      · have : g = s := by simpa using hg
        subst this
        exact hs
    · rw [if_neg hs] at hc
      have hflush : ∀ c2, c2 ∈ (if good.isEmpty then ([] : List (List Char))
          else mergeSplits cs ov [] good) → c2.length ≤ cs := by
        intro c2 hc2
        split at hc2
        · simp at hc2
        · exact mergeSplits_le cs ov good hgood c2 hc2
      rcases hre : recurse with _ | f
      · subst hre
        exact absurd (hnone rfl s (by simp)) hs
      · subst hre
        rcases List.mem_append.mp hc with hc | hc
        · rcases List.mem_append.mp hc with hc | hc
          · exact hflush c hc
          · exact hrec f rfl s c hc
        · exact ih [] (fun hr => by simp at hr) (by simp) c hc

theorem splitTextRec_le : ∀ (seps : List (List Char)),
    (seps ≠ [] → seps.getLast? = some ([] : List Char)) →
    ∀ (text : List Char), ∀ c ∈ splitTextRec CHUNK_SIZE CHUNK_OVERLAP seps text,
    c.length ≤ CHUNK_SIZE := by
  intro seps
  induction seps with
  | nil =>
    intro _ text c hc
    simp [splitTextRec] at hc
  | cons s rest ih =>
    intro hlast text c hc
    unfold splitTextRec at hc
    by_cases hse : s.isEmpty = true
    · rw [if_pos hse] at hc
      refine processSplits_le _ _ none (fun f hf => by cases hf) _ [] ?_ (by simp) c hc
      intro _ s' hs'
      rw [splitTextWithSep_nil_mem hs']
      decide
    · have hsne : s ≠ [] := by
        intro h
        rw [h] at hse
        simp at hse
      rw [if_neg hse] at hc
      by_cases hcont : containsSeq s text = true
      · rw [if_pos hcont] at hc
        cases rest with
        | nil =>
          exact absurd (by simpa using hlast (by simp)) hsne
        | cons r2 rest2 =>
          dsimp only at hc
          refine processSplits_le _ _ _ ?_ _ [] (fun h => by simp at h) (by simp) c hc
          intro f hf s' c' hc'
          have hf' : (fun t => splitTextRec CHUNK_SIZE CHUNK_OVERLAP (r2 :: rest2) t) = f :=
            Option.some.inj hf
          rw [← hf'] at hc'
          refine ih ?_ s' c' hc'
          intro _
          have := hlast (by simp)
          rwa [List.getLast?_cons_cons] at this
      · rw [if_neg hcont] at hc
        cases rest with
        | nil =>
          exact absurd (by simpa using hlast (by simp)) hsne
        | cons r2 rest2 =>
          refine ih ?_ text c hc
          intro _
          have := hlast (by simp)
          rwa [List.getLast?_cons_cons] at this

/-- Claim C2, counterexample: a document made of two 450-character paragraphs
separated by a blank line is split into exactly those two consecutive chunks,
which share no overlap at all, let alone one of the configured 100
characters. -/
theorem c2_counterexample :
    chunkDocs [{ pageContent := List.replicate 450 'a' ++ ['\n', '\n'] ++ List.replicate 450 'b',
                 source := "doc.txt" }] =
      [{ pageContent := List.replicate 450 'a', source := "doc.txt" },
       { pageContent := List.replicate 450 'b', source := "doc.txt" }]
    ∧ hasOverlapGE CHUNK_OVERLAP (List.replicate 450 'a') (List.replicate 450 'b') = false :=
  ⟨by decide, by decide⟩

/-- Claim C2, amended: the Chunker never produces a chunk whose text exceeds
the configured maximum of 500 characters; the configured 100-character
overlap, however, is an upper-bound target and consecutive chunks of the
same Document may share no overlap at all. -/
theorem c2_chunker_length_bound (docs : List Document) :
    ∀ ch ∈ chunkDocs docs, ch.pageContent.length ≤ CHUNK_SIZE := by
  intro ch hch
  unfold chunkDocs at hch
  rw [List.mem_flatten] at hch
  obtain ⟨l, hl, hch⟩ := hch
  rw [List.mem_map] at hl
  obtain ⟨d, hd, rfl⟩ := hl
  rw [List.mem_map] at hch
  obtain ⟨c, hc, rfl⟩ := hch
  exact splitTextRec_le SEPARATORS (fun _ => rfl) d.pageContent c hc

/-- Witness for c2_chunker_length_bound on a short single document. -/
theorem c2_witness :
    ({ pageContent := "hello".toList, source := "f.txt" } : Document) ∈
      chunkDocs [({ pageContent := "hello".toList, source := "f.txt" } : Document)]
    ∧ ({ pageContent := "hello".toList, source := "f.txt" } : Document).pageContent.length
        ≤ CHUNK_SIZE :=
  ⟨by decide,
   c2_chunker_length_bound [({ pageContent := "hello".toList, source := "f.txt" } : Document)]
     ({ pageContent := "hello".toList, source := "f.txt" } : Document) (by decide)⟩

end CivicLens
